import Mathlib

/-!
Verification of the hypernet repository: overlap metrics for cloud-mask
segmentation, patch-based image reconstruction, and train/val/test index
splitting.  Arrays are modelled as lists, pixel values and metric values as
rationals, machine floats as exact rational arithmetic.
-/

section HypernetVerification

attribute [local semireducible] Rat.add Rat.mul Rat.inv Rat.sub

/-! ## Overlap metrics (cloud_detection losses)

The implementation file cloud_detection/losses.py is absent from src; only its
callers and the parametrized test fixtures in
src/beetles/cloud_detection/tests/test_losses.py are present.  The metric
family is therefore modelled from the spec (sections 4.1 and 7), with the
prediction-rounding step that the test fixtures of the repository mandate for
the metric (not the loss) functions.  Masks of any shape are flattened to
lists, because only elementwise sums over all entries occur.
-/

/-- Modelled from the spec: sum of all entries of a (flattened) array. -/
def sumList (l : List ℚ) : ℚ := l.foldr (fun a b => a + b) 0

/-- Modelled from the spec: true positives, the sum of pred times truth. -/
def tp (yTrue yPred : List ℚ) : ℚ :=
  sumList (List.zipWith (fun t p => t * p) yTrue yPred)

/-- Modelled from the spec: false positives, the sum of pred times one minus truth. -/
def fp (yTrue yPred : List ℚ) : ℚ :=
  sumList (List.zipWith (fun t p => (1 - t) * p) yTrue yPred)

/-- Modelled from the spec: false negatives, the sum of one minus pred times truth. -/
def fn (yTrue yPred : List ℚ) : ℚ :=
  sumList (List.zipWith (fun t p => t * (1 - p)) yTrue yPred)

/-- Modelled from the spec: true negatives, the sum of one minus pred times one minus truth. -/
def tn (yTrue yPred : List ℚ) : ℚ :=
  sumList (List.zipWith (fun t p => (1 - t) * (1 - p)) yTrue yPred)

/-- Modelled from the spec: a ratio where division by zero yields the defined
value 0 (spec sections 4.1 and 7 require the zero-division case to be an
explicit defined result). -/
def safeDiv (a b : ℚ) : ℚ := if b = 0 then 0 else a / b

/-- Modelled from the spec and the test fixtures: rounding of each prediction
entry to the nearest integer, as K.round does inside the metric functions.
The fixtures only exercise the values 0, 0.25, 0.75 and 1, so the behaviour at
exact halves is not constrained by the repository. -/
def roundPred (yPred : List ℚ) : List ℚ := yPred.map (fun p => ((round p : ℤ) : ℚ))

/-- Modelled from the spec: Jaccard index computed directly on the raw
real-valued predictions, TP over TP plus FP plus FN. -/
def jaccard_index_direct (yTrue yPred : List ℚ) : ℚ :=
  safeDiv (tp yTrue yPred) (tp yTrue yPred + fp yTrue yPred + fn yTrue yPred)

/-- Modelled from the spec: Jaccard loss, one minus the Jaccard index on the
raw predictions (the loss fixtures of the repository use raw values). -/
def jaccard_index_loss (yTrue yPred : List ℚ) : ℚ :=
  1 - jaccard_index_direct yTrue yPred

/-- Modelled from the spec and the test fixtures: the Jaccard index metric,
which rounds the predictions before computing TP over TP plus FP plus FN. -/
def jaccard_index_metric (yTrue yPred : List ℚ) : ℚ :=
  jaccard_index_direct yTrue (roundPred yPred)

/-- Modelled from the spec: Dice coefficient on raw predictions. -/
def dice_direct (yTrue yPred : List ℚ) : ℚ :=
  safeDiv (2 * tp yTrue yPred) (2 * tp yTrue yPred + fp yTrue yPred + fn yTrue yPred)

/-- Modelled from the spec and the test fixtures: the Dice coefficient metric,
computed on rounded predictions. -/
def dice_coef_metric (yTrue yPred : List ℚ) : ℚ :=
  dice_direct yTrue (roundPred yPred)

/-- Modelled from the spec: recall on raw predictions, TP over TP plus FN. -/
def recall_direct (yTrue yPred : List ℚ) : ℚ :=
  safeDiv (tp yTrue yPred) (tp yTrue yPred + fn yTrue yPred)

/-- Modelled from the spec and the test fixtures: recall metric on rounded
predictions. -/
def recall_metric (yTrue yPred : List ℚ) : ℚ :=
  recall_direct yTrue (roundPred yPred)

/-- Modelled from the spec: precision on raw predictions, TP over TP plus FP. -/
def precision_direct (yTrue yPred : List ℚ) : ℚ :=
  safeDiv (tp yTrue yPred) (tp yTrue yPred + fp yTrue yPred)

/-- Modelled from the spec and the test fixtures: precision metric on rounded
predictions. -/
def precision (yTrue yPred : List ℚ) : ℚ :=
  precision_direct yTrue (roundPred yPred)

/-- Modelled from the spec and the test fixtures: specificity metric on
rounded predictions, TN over TN plus FP. -/
def specificity (yTrue yPred : List ℚ) : ℚ :=
  safeDiv (tn yTrue (roundPred yPred))
    (tn yTrue (roundPred yPred) + fp yTrue (roundPred yPred))

/-- Modelled from the spec: the F1 score equals the Dice coefficient metric. -/
def f1_score (yTrue yPred : List ℚ) : ℚ := dice_coef_metric yTrue yPred

/-- The parametrized fixtures of TestJaccardIndexMetric in
src/beetles/cloud_detection/tests/test_losses.py, flattened: each entry is
the triple of y_true, y_pred and the expected metric value. -/
def jaccardIndexMetricFixtures : List (List ℚ × List ℚ × ℚ) :=
  [([1, 1, 1, 1], [1, 1, 1, 1], 1),
   ([0, 1, 1, 1], [1, 1, 1, 1], 3/4),
   ([0, 1, 0, 1], [1, 1, 1, 1], 1/2),
   ([0, 0, 0, 1], [1, 1, 1, 1], 1/4),
   ([0, 0, 0, 0], [1, 1, 1, 1], 0),
   ([1, 1, 0, 0], [1/4, 1/4, 0, 0], 0),
   ([1, 1, 0, 0], [3/4, 3/4, 0, 0], 1)]

/-- The parametrized fixtures of TestRecall in test_losses.py, flattened. -/
def recallFixtures : List (List ℚ × List ℚ × ℚ) :=
  [([1, 1, 1, 1], [1, 1, 1, 1], 1),
   ([0, 1, 1, 1], [1, 1, 1, 1], 1),
   ([0, 1, 0, 1], [1, 1, 1, 1], 1),
   ([0, 0, 0, 1], [1, 1, 1, 1], 1),
   ([0, 0, 0, 0], [1, 1, 1, 1], 0),
   ([1, 1, 0, 0], [1/4, 1/4, 0, 0], 0),
   ([1, 1, 0, 0], [3/4, 3/4, 0, 0], 1)]

/-- The parametrized fixtures of TestPrecision in test_losses.py, flattened. -/
def precisionFixtures : List (List ℚ × List ℚ × ℚ) :=
  [([1, 1, 1, 1], [1, 1, 1, 1], 1),
   ([0, 1, 1, 1], [1, 1, 1, 1], 3/4),
   ([0, 1, 0, 1], [1, 1, 1, 1], 1/2),
   ([0, 0, 0, 1], [1, 1, 1, 1], 1/4),
   ([0, 0, 0, 0], [1, 1, 1, 1], 0),
   ([1, 1, 0, 0], [1/4, 1/4, 0, 0], 0),
   ([1, 1, 0, 0], [3/4, 3/4, 0, 0], 1)]

/-- The parametrized fixtures of TestSpecificity in test_losses.py, flattened. -/
def specificityFixtures : List (List ℚ × List ℚ × ℚ) :=
  [([1, 1, 1, 1], [1, 1, 1, 1], 0),
   ([0, 1, 1, 1], [1, 1, 1, 1], 0),
   ([0, 1, 0, 1], [1, 1, 1, 1], 0),
   ([0, 0, 0, 1], [1, 1, 1, 1], 0),
   ([0, 0, 0, 0], [1, 1, 1, 1], 0),
   ([1, 1, 0, 0], [1/4, 1/4, 0, 0], 1),
   ([1, 1, 0, 0], [3/4, 3/4, 0, 0], 1)]

example : jaccard_index_metric [1, 1, 0, 0] [1/4, 1/4, 0, 0] = 0 := by decide
example : jaccard_index_direct [1, 1, 0, 0] [1/4, 1/4, 0, 0] = 1/4 := by decide
example : recall_metric [0, 1, 1, 1] [1, 1, 1, 1] = 1 := by decide
example : recall_metric [1, 1, 1, 1] [0, 1, 1, 1] = 3/4 := by decide
example : dice_coef_metric [0, 1, 1, 1] [1, 1, 1, 1] = 6/7 := by decide
example :
    jaccardIndexMetricFixtures.all
      (fun t => jaccard_index_metric t.1 t.2.1 == t.2.2) = true := by decide

/-! ## Dataset splitting (src/ml_intuition/data/utils.py)

Arrays are modelled as lists; an in-place numpy operation becomes a function
returning the new list; a raised AssertionError or TypeError becomes the
value none.  The raw pseudo-random generator backing
np.random.RandomState(seed) is kept abstract as a parameter
g : seed -> draw index -> Nat; numpy then applies Fisher-Yates with the draw
at step k reduced modulo the current bound, so the swap sequence is a
function of the seed and of the array length only, exactly as in numpy.
-/

/-- Swap the entries at positions i and j of a list, identity when either
position is out of range (numpy never hits the out-of-range case). -/
def swapIdx (l : List α) (i j : Nat) : List α :=
  match l.get? i, l.get? j with
  | some a, some b => (l.set i b).set j a
  | _, _ => l

/-- np.random.RandomState(seed).shuffle: Fisher-Yates from the top index
down to 1, the draw at step k taken from the stream d and reduced to the
bound i + 1. -/
def npShuffle (d : Nat → Nat) (l : List α) : List α :=
  (List.range (l.length - 1)).foldl
    (fun x k => swapIdx x (l.length - 1 - k) (d k % (l.length - 1 - k + 1))) l

/-- shuffle_arrays_together from src/ml_intuition/data/utils.py: assert that
all arrays share the first-dimension length (none models the AssertionError,
raised before anything is shuffled), then shuffle each array with a fresh
RandomState(seed). -/
def shuffle_arrays_together (g : Nat → Nat → Nat) (seed : Nat)
    (arrays : List (List α)) : Option (List (List α)) :=
  if arrays.all (fun a => a.length == (arrays.headD []).length) then
    some (arrays.map (fun a => npShuffle (g seed) a))
  else none

/-- np.unique: the sorted list of distinct values occurring in labels. -/
def np_unique (labels : List Nat) : List Nat :=
  (List.range (labels.foldr max 0 + 1)).filter (fun v => labels.contains v)

/-- np.where(labels == label)[0]: ascending positions holding the value. -/
def np_where_eq (labels : List Nat) (c : Nat) : List Nat :=
  (List.range labels.length).filter (fun i => labels.getD i 0 == c)

/-- np.setdiff1d: sorted distinct values of the first list absent from the
second. -/
def np_setdiff1d (a b : List Nat) : List Nat :=
  (np_unique a).filter (fun x => ¬ b.contains x)

/-- Python int() applied to the nonnegative product len * size: the floor,
with toNat as the Int-to-Nat bridge. -/
def pyIntMul (n : Nat) (size : ℚ) : Nat := (⌊(n : ℚ) * size⌋).toNat

/-- _get_set_indices from src/ml_intuition/data/utils.py.  size is a rational
standing for the Python int-or-float argument; a value with denominator 1 in
the branches that slice with it stands for a Python int, any other value
there raises TypeError (none).  The assert size > 0 is the first none case.
np.concatenate of an empty list of arrays raises ValueError (none). -/
def get_set_indices (labels : List Nat) (size : ℚ) (stratified : Bool) :
    Option (List Nat) :=
  if ¬ (0 < size) then none
  else if 0 < size ∧ size < 1 ∧ stratified = true then
    if (np_unique labels).isEmpty then none
    else some (((np_unique labels).map (fun c =>
      (np_where_eq labels c).take (pyIntMul (np_where_eq labels c).length size))).flatten)
  else if 0 < size ∧ size < 1 ∧ stratified = false then
    some (List.range (pyIntMul labels.length size))
  else if 1 ≤ size ∧ stratified = true then
    if size.den = 1 then
      if (np_unique labels).isEmpty then none
      else some (((np_unique labels).map (fun c =>
        (np_where_eq labels c).take size.num.toNat)).flatten)
    else none
  else if 1 ≤ size ∧ stratified = false then
    if size.den = 1 then some (List.range size.num.toNat) else none
  else none

/-- Fancy indexing arr[idx]: none models the IndexError on an out-of-range
position. -/
def npIndex (l : List α) (idx : List Nat) : Option (List α) :=
  if idx.all (fun i => decide (i < l.length)) then some (idx.filterMap l.get?)
  else none

/-- train_val_test_split from src/ml_intuition/data/utils.py.  The call
shuffle_arrays_together([data, labels]) is inlined: its assert compares the
two lengths, and both arrays are shuffled with a fresh RandomState(0). -/
def train_val_test_split (g : Nat → Nat → Nat) (data : List α)
    (labels : List Nat) (train_size val_size : ℚ) (stratified : Bool) :
    Option ((List α × List Nat) × (List α × List Nat) × (List α × List Nat)) :=
  if data.length == labels.length then
    let data := npShuffle (g 0) data
    let labels := npShuffle (g 0) labels
    (get_set_indices labels train_size stratified).bind (fun train_indices =>
    (npIndex labels train_indices).bind (fun train_labels =>
    (get_set_indices train_labels val_size true).bind (fun val_indices =>
    let test_indices := np_setdiff1d (List.range data.length) train_indices
    let train_indices := np_setdiff1d train_indices val_indices
    (npIndex data train_indices).bind (fun train_x =>
    (npIndex labels train_indices).bind (fun train_y =>
    (npIndex data val_indices).bind (fun val_x =>
    (npIndex labels val_indices).bind (fun val_y =>
    (npIndex data test_indices).bind (fun test_x =>
    (npIndex labels test_indices).bind (fun test_y =>
    some ((train_x, train_y), (val_x, val_y), (test_x, test_y)))))))))))
  else none

/-- A concrete pseudo-random stream whose draws are all zero, used to
evaluate the split on explicit inputs. -/
def czero : Nat → Nat → Nat := fun _ _ => 0

/-- Concrete labels exhibiting the validation-index defect: after the seed-0
shuffle under czero the labels become [2, 0, 0, ..., 0]. -/
def exLabels : List Nat := [0, 2, 0, 0, 0, 0, 0, 0, 0, 0, 0, 0, 0, 0]

/-! ## Patch-based reconstruction (src/cloud_detection/evaluate_L8CCA.py)

An image is a function from pixel coordinates to values; the rearranged
prediction array is a function from grid coordinates and in-patch offsets to
values.  The output array initialized with np.full(..., np.inf) is modelled
as the constant none image, a slice assignment writes some values, so the
np.inf placeholder is exactly the value none.
-/

/-- One slice assignment img[r*ps:(r+1)*ps, c*ps:(c+1)*ps] = patch. -/
def write_patch (ps r c : Nat) (patch : Nat → Nat → α)
    (img : Nat → Nat → Option α) : Nat → Nat → Option α :=
  fun y x =>
    if r * ps ≤ y ∧ y < (r + 1) * ps ∧ c * ps ≤ x ∧ x < (c + 1) * ps then
      some (patch (y - r * ps) (x - c * ps))
    else img y x

/-- The reassembly loop of get_img_pred in src/cloud_detection/evaluate_L8CCA.py:
start from np.full((H, W, 1), np.inf) and write patch (r, c) at pixel offset
(r * ps, c * ps) for every grid coordinate, row-major.  preds r c dr dc is
the rearranged prediction array. -/
def get_img_pred (H W ps : Nat) (preds : Nat → Nat → Nat → Nat → α) :
    Nat → Nat → Option α :=
  (List.range (H / ps)).foldl
    (fun img r =>
      (List.range (W / ps)).foldl
        (fun img c => write_patch ps r c (preds r c) img) img)
    (fun _ _ => none)

/-- Modelled from the spec: the patch generator (data_gen.DG_L8CCA, absent
from src) tiles the image into the regular grid of non-overlapping
ps-by-ps patches, patch (r, c) holding the pixels at offset (r * ps, c * ps). -/
def tile_patches (ps : Nat) (img : Nat → Nat → α) :
    Nat → Nat → Nat → Nat → α :=
  fun r c dr dc => img (r * ps + dr) (c * ps + dc)

/-! ## Theorems -/

theorem sumList_zipWith_eq_zero (f : ℚ → ℚ → ℚ) (hf : f 0 0 = 0) :
    ∀ (l1 l2 : List ℚ), (∀ x ∈ l1, x = 0) → (∀ x ∈ l2, x = 0) →
      sumList (List.zipWith f l1 l2) = 0 := by
  intro l1
  induction l1 with
  | nil => intro l2 _ _; rfl
  | cons a t ih =>
    intro l2 h1 h2
    cases l2 with
    | nil => rfl
    | cons b t2 =>
      have ha : a = 0 := h1 a (by simp)
      have hb : b = 0 := h2 b (by simp)
      have ht : sumList (List.zipWith f t t2) = 0 :=
        ih t2 (fun x hx => h1 x (by simp [hx])) (fun x hx => h2 x (by simp [hx]))
      simp [sumList, List.zipWith, ha, hb, hf] at ht ⊢
      simpa [sumList] using ht

theorem roundPred_all_zero (l : List ℚ) (h : ∀ x ∈ l, x = 0) :
    ∀ x ∈ roundPred l, x = 0 := by
  intro x hx
  rcases List.mem_map.mp hx with ⟨p, hp, rfl⟩
  simp [h p hp]

/-- Claim C3 (corrected): the Jaccard index metric first rounds every
prediction entry to the nearest integer and only then equals
TP / (TP + FP + FN); the seven fixtures of TestJaccardIndexMetric in the
repository all hold of this definition. -/
theorem jaccard_metric_rounds_predictions :
    (∀ yTrue yPred : List ℚ,
      jaccard_index_metric yTrue yPred =
        safeDiv (tp yTrue (roundPred yPred))
          (tp yTrue (roundPred yPred) + fp yTrue (roundPred yPred) +
            fn yTrue (roundPred yPred))) ∧
    jaccardIndexMetricFixtures.all
      (fun t => jaccard_index_metric t.1 t.2.1 == t.2.2) = true :=
  ⟨fun _ _ => rfl, by decide⟩

/-- Claim C3, counterexample to the claim as stated: on the sixth fixture of
TestJaccardIndexMetric the repository expects the metric value 0, while the
direct formula TP / (TP + FP + FN) on the raw predictions yields 1/4, so the
metric is not computed directly on the real-valued predictions. -/
theorem jaccard_metric_direct_formula_fails_fixture :
    (([1, 1, 0, 0], [1/4, 1/4, 0, 0], (0 : ℚ)) ∈ jaccardIndexMetricFixtures) ∧
    jaccard_index_direct [1, 1, 0, 0] [1/4, 1/4, 0, 0] = 1/4 ∧
    jaccard_index_metric [1, 1, 0, 0] [1/4, 1/4, 0, 0] = 0 ∧
    (1/4 : ℚ) ≠ 0 := by
  refine ⟨by decide, by decide, by decide, by decide⟩

/-- Claim C4, counterexample to the claim as stated: with ground truth
[[1,1],[1,1]] and prediction [[0,1],[1,1]] the definitions
Recall = TP/(TP+FN) and Precision = TP/(TP+FP) give recall 3/4 (not 1) and
precision 1 (not 3/4), whether or not predictions are rounded first. -/
theorem metrics_example_as_stated_fails :
    recall_metric [1, 1, 1, 1] [0, 1, 1, 1] = 3/4 ∧
    recall_direct [1, 1, 1, 1] [0, 1, 1, 1] = 3/4 ∧
    precision [1, 1, 1, 1] [0, 1, 1, 1] = 1 ∧
    precision_direct [1, 1, 1, 1] [0, 1, 1, 1] = 1 ∧
    ((3 : ℚ)/4 ≠ 1) := by
  refine ⟨by decide, by decide, by decide, by decide, by decide⟩

/-- Claim C4 (corrected): with the roles as in the repository fixtures,
ground truth [[0,1],[1,1]] and prediction [[1,1],[1,1]], the metrics are
Jaccard 3/4, Dice 6/7, recall 1, precision 3/4, specificity 0 and F1 6/7;
the recall and precision rows are literally fixtures of the repository. -/
theorem metrics_example_swapped_holds :
    (([0, 1, 1, 1], [1, 1, 1, 1], (1 : ℚ)) ∈ recallFixtures) ∧
    (([0, 1, 1, 1], [1, 1, 1, 1], (3/4 : ℚ)) ∈ precisionFixtures) ∧
    jaccard_index_metric [0, 1, 1, 1] [1, 1, 1, 1] = 3/4 ∧
    dice_coef_metric [0, 1, 1, 1] [1, 1, 1, 1] = 6/7 ∧
    recall_metric [0, 1, 1, 1] [1, 1, 1, 1] = 1 ∧
    precision [0, 1, 1, 1] [1, 1, 1, 1] = 3/4 ∧
    specificity [0, 1, 1, 1] [1, 1, 1, 1] = 0 ∧
    f1_score [0, 1, 1, 1] [1, 1, 1, 1] = 6/7 := by
  refine ⟨by decide, by decide, by decide, by decide, by decide, by decide,
    by decide, by decide⟩

/-- Claim C7: on an all-zero ground truth together with an all-zero
prediction, every positive-overlap metric returns the defined value 0
instead of a division-by-zero failure. -/
theorem overlap_metrics_zero_on_all_zero (yTrue yPred : List ℚ)
    (ht : ∀ x ∈ yTrue, x = 0) (hp : ∀ x ∈ yPred, x = 0) :
    jaccard_index_metric yTrue yPred = 0 ∧
    dice_coef_metric yTrue yPred = 0 ∧
    recall_metric yTrue yPred = 0 ∧
    precision yTrue yPred = 0 ∧
    f1_score yTrue yPred = 0 := by
  have hr := roundPred_all_zero yPred hp
  have htp : tp yTrue (roundPred yPred) = 0 :=
    sumList_zipWith_eq_zero _ (by norm_num) _ _ ht hr
  have hfp : fp yTrue (roundPred yPred) = 0 :=
    sumList_zipWith_eq_zero _ (by norm_num) _ _ ht hr
  have hfn : fn yTrue (roundPred yPred) = 0 :=
    sumList_zipWith_eq_zero _ (by norm_num) _ _ ht hr
  refine ⟨?_, ?_, ?_, ?_, ?_⟩ <;>
    simp [jaccard_index_metric, dice_coef_metric, recall_metric, precision,
      f1_score, jaccard_index_direct, dice_direct, recall_direct,
      precision_direct, safeDiv, htp, hfp, hfn]

/-- Witness for claim C7 at the concrete all-zero masks of length two. -/
theorem overlap_metrics_zero_on_all_zero_witness :
    ((∀ x ∈ ([0, 0] : List ℚ), x = 0) ∧ (∀ x ∈ ([0, 0] : List ℚ), x = 0)) ∧
    (jaccard_index_metric [0, 0] [0, 0] = 0 ∧
     dice_coef_metric [0, 0] [0, 0] = 0 ∧
     recall_metric [0, 0] [0, 0] = 0 ∧
     precision [0, 0] [0, 0] = 0 ∧
     f1_score [0, 0] [0, 0] = 0) :=
  ⟨⟨by decide, by decide⟩,
   overlap_metrics_zero_on_all_zero [0, 0] [0, 0] (by decide) (by decide)⟩

/-- Claim C1 (code defect): on data = range 14 and the concrete labels
exLabels with the all-zero pseudo-random stream, train_val_test_split
returns a validation set overlapping the test set: the validation indices
are positions inside the training subset but are applied to the full
arrays, so sample 1 is handed out both as validation and as test data.  The
second conjunct evaluates the disjointness predicate on the function output
itself. -/
theorem train_val_test_split_val_test_overlap :
    train_val_test_split czero (List.range 14) exLabels (4/5) (1/10) true =
      some (([2, 3, 4, 5, 6, 7, 8, 9, 10, 11], [0, 0, 0, 0, 0, 0, 0, 0, 0, 0]),
            ([1], [2]),
            ([1, 12, 13, 0], [2, 0, 0, 0])) ∧
    ((train_val_test_split czero (List.range 14) exLabels (4/5) (1/10)
        true).map (fun r => decide (∀ v ∈ r.2.1.1, v ∉ r.2.2.1))) =
      some false := by
  refine ⟨by decide, by decide⟩

/-- Claim C2 (code defect): on the same concrete input, the training
superset selected first is {1, ..., 10}, the nested validation extraction
on the training labels returns the position list [0], and 0 is not a member
of the training superset: the validation sample is not one of the samples
first selected for the training superset.  The test indices are indeed the
complement of the training superset (last conjunct). -/
theorem train_val_test_split_val_not_nested :
    npShuffle (czero 0) exLabels = [2, 0, 0, 0, 0, 0, 0, 0, 0, 0, 0, 0, 0, 0] ∧
    get_set_indices (npShuffle (czero 0) exLabels) (4/5) true =
      some [1, 2, 3, 4, 5, 6, 7, 8, 9, 10] ∧
    npIndex (npShuffle (czero 0) exLabels) [1, 2, 3, 4, 5, 6, 7, 8, 9, 10] =
      some [0, 0, 0, 0, 0, 0, 0, 0, 0, 0] ∧
    get_set_indices [0, 0, 0, 0, 0, 0, 0, 0, 0, 0] (1/10) true = some [0] ∧
    (0 : Nat) ∉ [1, 2, 3, 4, 5, 6, 7, 8, 9, 10] ∧
    np_setdiff1d (List.range 14) [1, 2, 3, 4, 5, 6, 7, 8, 9, 10] =
      [0, 11, 12, 13] := by
  refine ⟨by decide, by decide, by decide, by decide, by decide, by decide⟩

/-- Claim C9: shuffle_arrays_together raises its AssertionError, before any
array is modified, exactly when some array differs in first-dimension length
from the first one; with equal lengths it always succeeds. -/
theorem shuffle_arrays_together_none_iff_length_mismatch
    (g : Nat → Nat → Nat) (seed : Nat) (arrays : List (List α)) :
    shuffle_arrays_together g seed arrays = none ↔
      ∃ a ∈ arrays, a.length ≠ (arrays.headD []).length := by
  unfold shuffle_arrays_together
  by_cases h : arrays.all (fun a => a.length == (arrays.headD []).length)
  · simp only [h, if_pos]
    simp only [List.all_eq_true, beq_iff_eq] at h
    simp only [reduceCtorEq, false_iff, not_exists]
    intro a ha
    exact ha.2 (h a ha.1)
  · simp only [h, if_neg, Bool.false_eq_true, not_false_eq_true, if_neg]
    simp only [List.all_eq_true, beq_iff_eq, not_forall] at h
    simpa using h

theorem foldl_write_row (ps : Nat) (r : Nat)
    (patches : Nat → Nat → Nat → Nat → α) :
    ∀ (k : Nat) (img : Nat → Nat → Option α) (y x : Nat),
      ((List.range k).foldl
        (fun im c => write_patch ps r c (patches r c) im) img) y x =
      if r * ps ≤ y ∧ y < (r + 1) * ps ∧ x < k * ps then
        some (patches r (x / ps) (y - r * ps) (x - x / ps * ps))
      else img y x := by
  intro k
  induction k with
  | zero =>
    intro img y x
    have hno : ¬ (r * ps ≤ y ∧ y < (r + 1) * ps ∧ x < 0 * ps) := by
      rintro ⟨-, -, hx⟩
      simp at hx
    rw [List.range_zero, List.foldl_nil, if_neg hno]
  | succ k ih =>
    intro img y x
    rw [List.range_succ, List.foldl_append, List.foldl_cons, List.foldl_nil]
    show (if r * ps ≤ y ∧ y < (r + 1) * ps ∧ k * ps ≤ x ∧ x < (k + 1) * ps then
        some (patches r k (y - r * ps) (x - k * ps))
      else ((List.range k).foldl
        (fun im c => write_patch ps r c (patches r c) im) img) y x) = _
    have hstep : k * ps ≤ (k + 1) * ps := by
      rw [Nat.succ_mul]
      exact Nat.le_add_right _ _
    by_cases hblock : r * ps ≤ y ∧ y < (r + 1) * ps ∧ k * ps ≤ x ∧ x < (k + 1) * ps
    · have hdiv : x / ps = k := Nat.div_eq_of_lt_le hblock.2.2.1 hblock.2.2.2
      rw [if_pos hblock, if_pos ⟨hblock.1, hblock.2.1, hblock.2.2.2⟩, hdiv]
    · rw [if_neg hblock, ih img y x]
      by_cases hc : r * ps ≤ y ∧ y < (r + 1) * ps ∧ x < k * ps
      · rw [if_pos hc,
          if_pos ⟨hc.1, hc.2.1, Nat.lt_of_lt_of_le hc.2.2 hstep⟩]
      · by_cases hd : r * ps ≤ y ∧ y < (r + 1) * ps ∧ x < (k + 1) * ps
        · exfalso
          have hxk : ¬ x < k * ps := fun hxx => hc ⟨hd.1, hd.2.1, hxx⟩
          exact hblock ⟨hd.1, hd.2.1, Nat.le_of_not_lt hxk, hd.2.2⟩
        · rw [if_neg hc, if_neg hd]

theorem foldl_write_grid (ps : Nat) (cols : Nat)
    (patches : Nat → Nat → Nat → Nat → α) :
    ∀ (rows : Nat) (y x : Nat),
      ((List.range rows).foldl
        (fun img r => (List.range cols).foldl
          (fun im c => write_patch ps r c (patches r c) im) img)
        (fun _ _ => none)) y x =
      if y < rows * ps ∧ x < cols * ps then
        some (patches (y / ps) (x / ps) (y - y / ps * ps) (x - x / ps * ps))
      else none := by
  intro rows
  induction rows with
  | zero =>
    intro y x
    have hno : ¬ (y < 0 * ps ∧ x < cols * ps) := by
      rintro ⟨hy, -⟩
      simp at hy
    rw [List.range_zero, List.foldl_nil, if_neg hno]
  | succ rows ih =>
    intro y x
    rw [List.range_succ, List.foldl_append, List.foldl_cons, List.foldl_nil]
    rw [foldl_write_row ps rows patches cols _ y x]
    have hstep : rows * ps ≤ (rows + 1) * ps := by
      rw [Nat.succ_mul]
      exact Nat.le_add_right _ _
    by_cases hband : rows * ps ≤ y ∧ y < (rows + 1) * ps ∧ x < cols * ps
    · have hdiv : y / ps = rows := Nat.div_eq_of_lt_le hband.1 hband.2.1
      rw [if_pos hband, if_pos ⟨hband.2.1, hband.2.2⟩, hdiv]
    · rw [if_neg hband, ih y x]
      by_cases hc : y < rows * ps ∧ x < cols * ps
      · rw [if_pos hc, if_pos ⟨Nat.lt_of_lt_of_le hc.1 hstep, hc.2⟩]
      · by_cases hd : y < (rows + 1) * ps ∧ x < cols * ps
        · exfalso
          have hyk : ¬ y < rows * ps := fun hyy => hc ⟨hyy, hd.2⟩
          exact hband ⟨Nat.le_of_not_lt hyk, hd.1, hd.2⟩
        · rw [if_neg hc, if_neg hd]

/-- Claim C5: reassembling the row-major tiling of an image whose height and
width are exact multiples of the patch size reproduces the original image at
every pixel (round-trip identity); the patch at grid coordinate (r, c) lands
at pixel offset (r * ps, c * ps). -/
theorem get_img_pred_tile_roundtrip (H W ps : Nat) (img : Nat → Nat → α)
    (hH : ps ∣ H) (hW : ps ∣ W) (y x : Nat) (hy : y < H) (hx : x < W) :
    get_img_pred H W ps (tile_patches ps img) y x = some (img y x) := by
  unfold get_img_pred
  rw [foldl_write_grid ps (W / ps) (tile_patches ps img) (H / ps) y x]
  have hy2 : y < H / ps * ps := by rw [Nat.div_mul_cancel hH]; exact hy
  have hx2 : x < W / ps * ps := by rw [Nat.div_mul_cancel hW]; exact hx
  rw [if_pos ⟨hy2, hx2⟩]
  unfold tile_patches
  rw [Nat.add_sub_cancel' (Nat.div_mul_le_self y ps),
    Nat.add_sub_cancel' (Nat.div_mul_le_self x ps)]

/-- Witness for claim C5 on a concrete 4 by 4 image tiled into 2 by 2
patches. -/
theorem get_img_pred_tile_roundtrip_witness :
    ((2 : Nat) ∣ 4 ∧ (2 : Nat) ∣ 4 ∧ (3 : Nat) < 4 ∧ (2 : Nat) < 4) ∧
    get_img_pred 4 4 2 (tile_patches 2 (fun y x => 10 * y + x)) 3 2 =
      some ((fun y x => 10 * y + x) 3 2) :=
  ⟨⟨by decide, by decide, by decide, by decide⟩,
   get_img_pred_tile_roundtrip 4 4 2 (fun y x => 10 * y + x)
     (by decide) (by decide) 3 2 (by decide) (by decide)⟩

/-- Claim C10: when the stored image height and width are exact multiples of
the patch size, the reassembly loop of get_img_pred overwrites every pixel,
so the np.inf placeholder (modelled as none) never appears in the returned
prediction. -/
theorem get_img_pred_no_placeholder (H W ps : Nat)
    (preds : Nat → Nat → Nat → Nat → α) (hH : ps ∣ H) (hW : ps ∣ W)
    (y x : Nat) (hy : y < H) (hx : x < W) :
    get_img_pred H W ps preds y x ≠ none := by
  unfold get_img_pred
  rw [foldl_write_grid ps (W / ps) preds (H / ps) y x]
  have hy2 : y < H / ps * ps := by rw [Nat.div_mul_cancel hH]; exact hy
  have hx2 : x < W / ps * ps := by rw [Nat.div_mul_cancel hW]; exact hx
  rw [if_pos ⟨hy2, hx2⟩]
  exact Option.some_ne_none _

/-- Witness for claim C10 on a concrete 2 by 2 image with patch size 1. -/
theorem get_img_pred_no_placeholder_witness :
    ((1 : Nat) ∣ 2 ∧ (1 : Nat) ∣ 2 ∧ (1 : Nat) < 2 ∧ (1 : Nat) < 2) ∧
    get_img_pred 2 2 1 (fun _ _ _ _ => (7 : Nat)) 1 1 ≠ none :=
  ⟨⟨by decide, by decide, by decide, by decide⟩,
   get_img_pred_no_placeholder 2 2 1 (fun _ _ _ _ => (7 : Nat))
     (by decide) (by decide) 1 1 (by decide) (by decide)⟩

theorem le_foldr_max (labels : List Nat) (c : Nat) (h : c ∈ labels) :
    c ≤ labels.foldr max 0 := by
  induction labels with
  | nil => cases h
  | cons a t ih =>
    rcases List.mem_cons.mp h with rfl | ht
    · exact Nat.le_max_left _ _
    · exact Nat.le_trans (ih ht) (Nat.le_max_right _ _)

theorem mem_np_unique (labels : List Nat) (c : Nat) :
    c ∈ np_unique labels ↔ c ∈ labels := by
  unfold np_unique
  constructor
  · intro h
    have h2 := (List.mem_filter.mp h).2
    simpa using h2
  · intro h
    refine List.mem_filter.mpr ⟨List.mem_range.mpr ?_, by simpa using h⟩
    have := le_foldr_max labels c h
    omega

theorem np_unique_nodup (labels : List Nat) : (np_unique labels).Nodup :=
  (List.nodup_range _).filter _

theorem np_where_eq_label (labels : List Nat) (c : Nat) :
    ∀ i ∈ np_where_eq labels c, labels.getD i 0 = c := by
  intro i hi
  have := (List.mem_filter.mp hi).2
  simpa using this


theorem np_where_eq_length (labels : List Nat) (c : Nat) :
    (np_where_eq labels c).length = labels.count c := by
  unfold np_where_eq
  induction labels with
  | nil => rfl
  | cons a t ih =>
    rw [List.length_cons, List.range_succ_eq_map, List.filter_cons,
      List.filter_map, List.count_cons]
    have hcomp :
        ((fun i => (a :: t).getD i 0 == c) ∘ Nat.succ)
          = (fun i => t.getD i 0 == c) := rfl
    rw [hcomp]
    by_cases hac : ((a :: t).getD 0 0 == c) = true
    · rw [if_pos hac, List.length_cons, List.length_map, ih]
      have : (a == c) = true := by simpa using hac
      rw [if_pos this]
    · rw [if_neg hac, List.length_map, ih]
      have : ¬ (a == c) = true := by simpa using hac
      rw [if_neg this, Nat.add_zero]

theorem sum_map_eq_of_single (l : List Nat) (hl : l.Nodup) (c : Nat)
    (hc : c ∈ l) (F : Nat → Nat) (h0 : ∀ x ∈ l, x ≠ c → F x = 0) :
    (l.map F).sum = F c := by
  induction l with
  | nil => cases hc
  | cons a t ih =>
    rcases List.mem_cons.mp hc with rfl | hct
    · rw [List.map_cons, List.sum_cons, List.sum_eq_zero, Nat.add_zero]
      intro y hy
      rcases List.mem_map.mp hy with ⟨x, hx, rfl⟩
      exact h0 x (List.mem_cons_of_mem _ hx)
        (fun he => (List.nodup_cons.mp hl).1 (he ▸ hx))
    · have ha : F a = 0 :=
        h0 a (List.mem_cons_self a t)
          (by rintro rfl; exact (List.nodup_cons.mp hl).1 hct)
      rw [List.map_cons, List.sum_cons, ha, Nat.zero_add]
      exact ih (List.nodup_cons.mp hl).2 hct
        (fun x hx => h0 x (List.mem_cons_of_mem _ hx))

theorem pyIntMul_le_self (n : Nat) (s : ℚ) (h1 : s < 1) : pyIntMul n s ≤ n := by
  unfold pyIntMul
  have hmul : (n : ℚ) * s ≤ (n : ℚ) :=
    mul_le_of_le_one_right (Nat.cast_nonneg n) (le_of_lt h1)
  have hfl : ⌊(n : ℚ) * s⌋ ≤ (n : ℤ) := by
    calc ⌊(n : ℚ) * s⌋ ≤ ⌊(n : ℚ)⌋ := Int.floor_le_floor hmul
    _ = (n : ℤ) := Int.floor_natCast n
  exact Int.toNat_le.mpr hfl

/-- Claim C6: in stratified mode with a fractional size 0 < s < 1, the index
extraction selects from each class exactly the floor of the class size times
s indices of that class. -/
theorem get_set_indices_stratified_class_count (labels : List Nat) (s : ℚ)
    (h0 : 0 < s) (h1 : s < 1) (c : Nat) (hc : c ∈ labels) :
    ∃ idx, get_set_indices labels s true = some idx ∧
      (idx.filter (fun i => labels.getD i 0 == c)).length =
        (⌊(labels.count c : ℚ) * s⌋).toNat := by
  have hcu : c ∈ np_unique labels := (mem_np_unique labels c).mpr hc
  have hne : (np_unique labels).isEmpty = false := by
    cases h : np_unique labels with
    | nil => rw [h] at hcu; cases hcu
    | cons a t => rfl
  refine ⟨((np_unique labels).map (fun v =>
    (np_where_eq labels v).take
      (pyIntMul (np_where_eq labels v).length s))).flatten, ?_, ?_⟩
  · unfold get_set_indices
    rw [if_neg (not_not_intro h0), if_pos ⟨h0, h1, rfl⟩, hne]
    rw [if_neg (by simp)]
  · rw [List.filter_flatten, List.map_map, List.length_flatten, List.map_map]
    have hsum := sum_map_eq_of_single (np_unique labels)
      (np_unique_nodup labels) c hcu
      (fun v => (((np_where_eq labels v).take
        (pyIntMul (np_where_eq labels v).length s)).filter
          (fun i => labels.getD i 0 == c)).length) ?_
    · have hall : ((np_where_eq labels c).take
          (pyIntMul (np_where_eq labels c).length s)).filter
            (fun i => labels.getD i 0 == c) =
          (np_where_eq labels c).take
            (pyIntMul (np_where_eq labels c).length s) := by
        rw [List.filter_eq_self]
        intro a ha
        have hmem : a ∈ np_where_eq labels c := List.take_subset _ _ ha
        simpa using np_where_eq_label labels c a hmem
      have h2 : (((np_where_eq labels c).take
          (pyIntMul (np_where_eq labels c).length s)).filter
            (fun i => labels.getD i 0 == c)).length =
          (⌊(labels.count c : ℚ) * s⌋).toNat := by
        rw [hall, List.length_take, np_where_eq_length,
          Nat.min_eq_left (by
            have := pyIntMul_le_self (np_where_eq labels c).length s h1
            rw [np_where_eq_length] at this
            exact this)]
        rfl
      exact hsum.trans h2
    · intro v hv hvc
      rw [List.length_eq_zero, List.filter_eq_nil_iff]
      intro a ha
      have hmem : a ∈ np_where_eq labels v := List.take_subset _ _ ha
      have hlab := np_where_eq_label labels v a hmem
      simp only [beq_iff_eq]
      rw [hlab]
      exact hvc

/-- Witness for claim C6 at labels [0, 0, 1, 0, 1] with s = 1/2 and class 0:
three indices carry class 0, and exactly one is selected. -/
theorem get_set_indices_stratified_class_count_witness :
    ((0 : ℚ) < 1/2 ∧ (1/2 : ℚ) < 1 ∧ (0 : Nat) ∈ [0, 0, 1, 0, 1]) ∧
    (∃ idx, get_set_indices [0, 0, 1, 0, 1] (1/2) true = some idx ∧
      (idx.filter (fun i => ([0, 0, 1, 0, 1] : List Nat).getD i 0 == 0)).length =
        (⌊((([0, 0, 1, 0, 1] : List Nat).count 0 : ℚ)) * (1/2)⌋).toNat) :=
  ⟨⟨by decide, by decide, by decide⟩,
   get_set_indices_stratified_class_count [0, 0, 1, 0, 1] (1/2)
     (by decide) (by decide) 0 (by decide)⟩

theorem swapIdx_map (f : α → β) (l : List α) (i j : Nat) :
    swapIdx (l.map f) i j = (swapIdx l i j).map f := by
  unfold swapIdx
  rw [List.get?_map, List.get?_map]
  cases hi : l.get? i <;> cases hj : l.get? j <;>
    simp [List.map_set]

theorem foldl_swapIdx_map (ks : List Nat) (iF jF : Nat → Nat) (f : α → β) :
    ∀ (l : List α),
      ks.foldl (fun x k => swapIdx x (iF k) (jF k)) (l.map f) =
        (ks.foldl (fun x k => swapIdx x (iF k) (jF k)) l).map f := by
  induction ks with
  | nil => intro l; rfl
  | cons k t ih =>
    intro l
    rw [List.foldl_cons, List.foldl_cons, swapIdx_map, ih]

theorem npShuffle_map (d : Nat → Nat) (f : α → β) (l : List α) :
    npShuffle d (l.map f) = (npShuffle d l).map f := by
  unfold npShuffle
  rw [List.length_map]
  exact foldl_swapIdx_map (List.range (l.length - 1))
    (fun k => l.length - 1 - k) (fun k => d k % (l.length - 1 - k + 1)) f l

theorem getD_range_map (l : List α) (d : α) :
    (List.range l.length).map (fun i => l.getD i d) = l := by
  induction l with
  | nil => rfl
  | cons a t ih =>
    rw [List.length_cons, List.range_succ_eq_map, List.map_cons, List.map_map]
    have hcomp : ((fun i => (a :: t).getD i d) ∘ Nat.succ)
        = (fun i => t.getD i d) := rfl
    rw [hcomp, ih]
    rfl

/-- Claim C8: on a list of arrays of one common length, for any seed and any
raw generator, shuffle_arrays_together succeeds and applies to every array
one and the same positional permutation, namely the seed-0-style Fisher-Yates
permutation of the index list range n, which depends only on the seed stream
and the common length; in particular data/label pairings are preserved, and
the output is a function of the inputs and the seed alone. -/
theorem shuffle_arrays_together_single_perm [Inhabited α]
    (g : Nat → Nat → Nat) (seed n : Nat) (arrays : List (List α))
    (hlen : ∀ a ∈ arrays, a.length = n) :
    shuffle_arrays_together g seed arrays =
      some (arrays.map (fun a =>
        (npShuffle (g seed) (List.range n)).map (fun i => a.getD i default))) := by
  unfold shuffle_arrays_together
  have hcond : arrays.all
      (fun a => a.length == (arrays.headD []).length) = true := by
    rw [List.all_eq_true]
    intro a ha
    cases arrays with
    | nil => cases ha
    | cons a0 t =>
      have h1 := hlen a ha
      have h0 := hlen a0 (List.mem_cons_self _ _)
      simp only [List.headD_cons, beq_iff_eq, h1, h0]
  rw [if_pos hcond]
  congr 1
  apply List.map_congr_left
  intro a ha
  have hn : a.length = n := hlen a ha
  have hmap : (List.range n).map (fun i => a.getD i default) = a := by
    rw [← hn]
    exact getD_range_map a default
  calc npShuffle (g seed) a
      = npShuffle (g seed) ((List.range n).map (fun i => a.getD i default)) := by
        rw [hmap]
    _ = (npShuffle (g seed) (List.range n)).map (fun i => a.getD i default) :=
        npShuffle_map (g seed) _ _

/-- Witness for claim C8 on two concrete arrays of length three. -/
theorem shuffle_arrays_together_single_perm_witness :
    (∀ a ∈ [[1, 2, 3], [4, 5, 6]], a.length = 3) ∧
    shuffle_arrays_together (fun s k => s + k) 5 [[1, 2, 3], [4, 5, 6]] =
      some ([[1, 2, 3], [4, 5, 6]].map (fun a =>
        (npShuffle ((fun (s k : Nat) => s + k) 5) (List.range 3)).map
          (fun i => a.getD i default))) :=
  ⟨by decide,
   shuffle_arrays_together_single_perm (fun s k => s + k) 5 3
     [[1, 2, 3], [4, 5, 6]] (by decide)⟩

end HypernetVerification
